import Mathlib

/-!
Verification of the Estaff résumé-to-index pipeline and retrieval engine.

The Python services are shallowly embedded: JSON values and Python values
become inductive types, the service functions become total Lean functions,
and external collaborators (the chat model, the Qdrant vector store, the
relational store) are passed in as explicit oracle arguments so that each
code path is decided by the data it actually receives.
-/

set_option maxRecDepth 10000

/-! ## JSON values and a model of Python `json.loads` -/

/-- A JSON value as produced by `json.loads` (floats are not needed by any
claim, so numbers are integers). -/
inductive Json where
  | null
  | bool (b : Bool)
  | num (n : Int)
  | str (s : String)
  | arr (elems : List Json)
  | obj (fields : List (String × Json))
deriving Repr, Inhabited

/-- `sub` is a prefix of `hay` (boolean test on character lists). -/
def prefixOfB : List Char → List Char → Bool
  | [], _ => true
  | _ :: _, [] => false
  | c :: cs, d :: ds => c == d && prefixOfB cs ds

/-- Helper for `pyFind`: first index `≥ i` at which `sub` occurs. -/
def findFromAux (sub : List Char) : List Char → Nat → Option Nat
  | [], i => if sub.isEmpty then some i else Option.none
  | c :: rest, i =>
    if prefixOfB sub (c :: rest) then some i else findFromAux sub rest (i + 1)

/-- Python `s.find(sub, start)`, with `none` standing for the -1 result. -/
def pyFind (s sub : String) (start : Nat) : Option Nat :=
  findFromAux sub.data (s.data.drop start) start

/-- Python `sub in s`. -/
def pyContains (s sub : String) : Bool :=
  (pyFind s sub 0).isSome

/-- Python slice `s[start:stop]` where `stop` may be negative (counted from
the end of the string), as in `content[start:-1]`. -/
def pySlice (s : String) (start : Nat) (stop : Int) : String :=
  let n := s.data.length
  let stopN : Nat := if stop < 0 then ((n : Int) + stop).toNat else min stop.toNat n
  String.mk ((s.data.take stopN).drop start)

/-- Python `s.strip()`: drop whitespace from both ends. -/
def pyStrip (s : String) : String :=
  String.mk (((s.data.dropWhile Char.isWhitespace).reverse.dropWhile Char.isWhitespace).reverse)

/-- Skip JSON whitespace. -/
def skipWs : List Char → List Char
  | [] => []
  | c :: cs => if c == ' ' || c == '\n' || c == '\t' || c == '\r' then skipWs cs else c :: cs

/-- Body of a JSON string literal (escape sequences are rejected; no input
used in this development needs them). -/
def parseStrBody : List Char → Option (String × List Char)
  | [] => Option.none
  | '"' :: rest => some ("", rest)
  | '\\' :: _ => Option.none
  | c :: rest =>
    match parseStrBody rest with
    | some (s, r) => some (String.mk (c :: s.data), r)
    | Option.none => Option.none

/-- Parse the remaining digits of a non-negative integer literal
(fractional and exponent parts are rejected, as no input in this
development uses them). -/
def parseNumChars : Nat → List Char → Option (Nat × List Char)
  | n, c :: rest =>
    if c.isDigit then parseNumChars (n * 10 + (c.toNat - '0'.toNat)) rest
    else if c == '.' || c == 'e' || c == 'E' then Option.none
    else some (n, c :: rest)
  | n, [] => some (n, [])

/-- Entry point for integer parsing: requires at least one digit. -/
def parseNum : List Char → Option (Nat × List Char)
  | c :: rest =>
    if c.isDigit then parseNumChars (c.toNat - '0'.toNat) rest else Option.none
  | [] => Option.none

mutual

/-- Fuel-indexed parser for one JSON value; returns the value and the rest. -/
def parseValue : Nat → List Char → Option (Json × List Char)
  | 0, _ => Option.none
  | fuel + 1, cs =>
    match skipWs cs with
    | 'n' :: 'u' :: 'l' :: 'l' :: rest => some (.null, rest)
    | 't' :: 'r' :: 'u' :: 'e' :: rest => some (.bool true, rest)
    | 'f' :: 'a' :: 'l' :: 's' :: 'e' :: rest => some (.bool false, rest)
    | '"' :: rest =>
      match parseStrBody rest with
      | some (s, r) => some (.str s, r)
      | Option.none => Option.none
    | '[' :: rest =>
      (match skipWs rest with
       | ']' :: r => some (.arr [], r)
       | _ => parseElems fuel rest [])
    | '{' :: rest =>
      (match skipWs rest with
       | '}' :: r => some (.obj [], r)
       | _ => parseFields fuel rest [])
    | '-' :: rest =>
      match parseNum rest with
      | some (n, r) => some (.num (-(n : Int)), r)
      | Option.none => Option.none
    | c :: rest =>
      if c.isDigit then
        match parseNum (c :: rest) with
        | some (n, r) => some (.num (n : Int), r)
        | Option.none => Option.none
      else Option.none
    | [] => Option.none

/-- Elements of a JSON array after the opening bracket. -/
def parseElems : Nat → List Char → List Json → Option (Json × List Char)
  | 0, _, _ => Option.none
  | fuel + 1, cs, acc =>
    match parseValue fuel cs with
    | Option.none => Option.none
    | some (v, rest) =>
      match skipWs rest with
      | ',' :: r => parseElems fuel r (acc ++ [v])
      | ']' :: r => some (.arr (acc ++ [v]), r)
      | _ => Option.none

/-- Members of a JSON object after the opening brace. -/
def parseFields : Nat → List Char → List (String × Json) → Option (Json × List Char)
  | 0, _, _ => Option.none
  | fuel + 1, cs, acc =>
    match skipWs cs with
    | '"' :: rest =>
      (match parseStrBody rest with
       | Option.none => Option.none
       | some (k, rest2) =>
         match skipWs rest2 with
         | ':' :: rest3 =>
           (match parseValue fuel rest3 with
            | Option.none => Option.none
            | some (v, rest4) =>
              match skipWs rest4 with
              | ',' :: r => parseFields fuel r (acc ++ [(k, v)])
              | '}' :: r => some (.obj (acc ++ [(k, v)]), r)
              | _ => Option.none)
         | _ => Option.none)
    | _ => Option.none

end

/-- Model of Python `json.loads`: parse one value and require only
whitespace after it. -/
def jsonLoads (s : String) : Option Json :=
  match parseValue (2 * s.data.length + 4) s.data with
  | some (v, rest) => if (skipWs rest).isEmpty then some v else Option.none
  | Option.none => Option.none

/-! ## CandidateEvaluation (src/models/api.py) and the evaluation-response
parser (src/services/candidate_search.py, `_parse_llm_response`) -/

/-- `CandidateEvaluation` from `models/api.py`: three 1–10 integer scores
plus identifying strings. -/
structure CandidateEvaluation where
  name : String
  phone : String
  location : String
  hard_skills_score : Int
  domain_skills_score : Int
  relevance_score : Int
  relevance_explanation : String
deriving Repr, DecidableEq, Inhabited

/-- A required string field of the pydantic model. -/
def jsonStrField : Option Json → Option String
  | some (.str s) => some s
  | _ => Option.none

/-- A required 1–10 integer score field of the pydantic model. -/
def jsonScoreField : Option Json → Option Int
  | some (.num n) => if 1 ≤ n ∧ n ≤ 10 then some n else Option.none
  | _ => Option.none

/-- Pydantic construction `CandidateEvaluation(**item)`: every field is
required and validated; extra keys are ignored. -/
def mkCandidateEvaluation (fields : List (String × Json)) : Option CandidateEvaluation := do
  let name ← jsonStrField (fields.lookup "name")
  let phone ← jsonStrField (fields.lookup "phone")
  let location ← jsonStrField (fields.lookup "location")
  let hs ← jsonScoreField (fields.lookup "hard_skills_score")
  let ds ← jsonScoreField (fields.lookup "domain_skills_score")
  let rs ← jsonScoreField (fields.lookup "relevance_score")
  let rex ← jsonStrField (fields.lookup "relevance_explanation")
  some ⟨name, phone, location, hs, ds, rs, rex⟩

/-- An element of the list returned by `_parse_llm_response`: in the
bare-array branch a dict element becomes a `CandidateEvaluation` while any
other element is passed through unchanged. -/
inductive EvalItem where
  | eval (e : CandidateEvaluation)
  | raw (j : Json)
deriving Repr, Inhabited

/-- Python iteration `for item in value`: lists yield elements, strings
yield one-character strings, dicts yield their keys; other values raise. -/
def pyIter : Json → Option (List Json)
  | .arr xs => some xs
  | .str s => some (s.data.map fun c => .str (String.mk [c]))
  | .obj kvs => some (kvs.map fun kv => .str kv.1)
  | _ => Option.none

/-- Bare-array branch: `CandidateEvaluation(**item) if isinstance(item, dict)
else item`; a dict that fails validation raises. -/
def toEvalItems : List Json → Except String (List EvalItem)
  | [] => .ok []
  | j :: js =>
    match j with
    | .obj fields =>
      (match mkCandidateEvaluation fields with
       | some e =>
         match toEvalItems js with
         | .ok xs => .ok (.eval e :: xs)
         | .error m => .error m
       | Option.none => .error "validation error for CandidateEvaluation")
    | _ =>
      match toEvalItems js with
      | .ok xs => .ok (.raw j :: xs)
      | .error m => .error m

/-- `candidates` / first-list-value branches: every item must be a dict
that validates; anything else raises. -/
def toEvalItemsStrict : List Json → Except String (List EvalItem)
  | [] => .ok []
  | .obj fields :: js =>
    (match mkCandidateEvaluation fields with
     | some e =>
       match toEvalItemsStrict js with
       | .ok xs => .ok (.eval e :: xs)
       | .error m => .error m
     | Option.none => .error "validation error for CandidateEvaluation")
  | _ :: _ => .error "item is not a dict"

/-- `for value in data.values(): if isinstance(value, list)` — the first
object value that is itself a list. -/
def firstListValue : List (String × Json) → Option (List Json)
  | [] => Option.none
  | (_, .arr xs) :: _ => some xs
  | _ :: rest => firstListValue rest

/-- Fence extraction prelude of `_parse_llm_response`: if the stripped
content contains a ```json fence (or any ``` fence), the fenced body is cut
out with `find`/slicing before JSON parsing. -/
def extractFenced (content : String) : String :=
  if pyContains content "```json" then
    match pyFind content "```json" 0 with
    | some i =>
      let start := i + 7
      let stop : Int :=
        match pyFind content "```" start with
        | some j => (j : Int)
        | Option.none => -1
      pyStrip (pySlice content start stop)
    | Option.none => content
  else if pyContains content "```" then
    match pyFind content "```" 0 with
    | some i =>
      let start := i + 3
      let stop : Int :=
        match pyFind content "```" start with
        | some j => (j : Int)
        | Option.none => -1
      pyStrip (pySlice content start stop)
    | Option.none => content
  else content

/-- `_parse_llm_response` from `candidate_search.py`: strip, extract a
fenced body if present, `json.loads`, then dispatch on the parsed value
(list / dict with `candidates` / dict with a first list value); every
failure is caught and re-raised as a parse error. -/
def parse_llm_response (response_content : String) : Except String (List EvalItem) :=
  let content := extractFenced (pyStrip response_content)
  match jsonLoads content with
  | Option.none => .error "json decode failed"
  | some data =>
    match data with
    | .arr items => toEvalItems items
    | .obj fields =>
      (match fields.lookup "candidates" with
       | some v =>
         (match pyIter v with
          | some items => toEvalItemsStrict items
          | Option.none => .error "candidates value is not iterable")
       | Option.none =>
         match firstListValue fields with
         | some items => toEvalItemsStrict items
         | Option.none => .error "no candidate list in response")
    | _ => .error "unexpected response format"

/-- Boolean success test for `Except` results. -/
def exceptOk {ε α : Type} : Except ε α → Bool
  | .ok _ => true
  | .error _ => false

example : jsonLoads "[1, 2]" = some (.arr [.num 1, .num 2]) := by rfl
example : jsonLoads "Hello there" = Option.none := by rfl
example : jsonLoads "\x7b\"a\": null\x7d" = some (.obj [("a", .null)]) := by rfl
example : exceptOk (parse_llm_response "[1, 2]") = true := by rfl
example : exceptOk (parse_llm_response "no json here") = false := by rfl

/-! ## Python values and the document assembler
(src/services/resume_processor.py, `convert_to_documents`) -/

/-- A Python value as found in the `parsed_results` batch list: the dump of
a pydantic model is a dict, but the assembler defends against arbitrary
values. -/
inductive PyVal where
  | none
  | bool (b : Bool)
  | int (n : Int)
  | float (q : Rat)
  | str (s : String)
  | list (xs : List PyVal)
  | dict (kvs : List (String × PyVal))
deriving Repr, Inhabited

/-- Python truthiness, as used by `if not item`. -/
def PyVal.truthy : PyVal → Bool
  | .none => false
  | .bool b => b
  | .int n => n != 0
  | .float q => q != 0
  | .str s => !s.isEmpty
  | .list xs => !xs.isEmpty
  | .dict kvs => !kvs.isEmpty

/-- `isinstance(item, dict)`. -/
def PyVal.isDict : PyVal → Bool
  | .dict _ => true
  | _ => false

/-- The key/value pairs of a dict (`item.items()`); other values have none. -/
def PyVal.items : PyVal → List (String × PyVal)
  | .dict kvs => kvs
  | _ => []

/-- Python `item.get(key)`: `None` when the key is absent (so an absent key
and a stored `None` are indistinguishable, exactly as in the code). -/
def PyVal.get : PyVal → String → PyVal
  | .dict kvs, k =>
    (match kvs.lookup k with
     | some v => v
     | Option.none => .none)
  | _, _ => .none

/-- A langchain `Document` headed for Qdrant: page content plus a metadata
dict. -/
structure IndexedDocument where
  page_content : String
  metadata : List (String × PyVal)
deriving Repr, Inhabited

/-- One iteration of the `convert_to_documents` loop: `none` when the entry
is skipped (falsy entry, non-dict entry, missing `embedding_text`, or
non-string `embedding_text`), otherwise the built document. -/
def convertStep (item : PyVal) : Option IndexedDocument :=
  if !item.truthy then Option.none
  else if !item.isDict then Option.none
  else
    match item.get "embedding_text" with
    | .none => Option.none
    | .str s => some ⟨s, item.items.filter (fun kv => kv.1 != "embedding_text")⟩
    | _ => Option.none

/-- `convert_to_documents` from `resume_processor.py`: build a document per
valid entry, skipping invalid ones, and raise `ValueError` when no valid
document remains. -/
def convert_to_documents (parsed_results : List PyVal) : Except String (List IndexedDocument) :=
  let documents := parsed_results.filterMap convertStep
  if documents.isEmpty then
    .error "После обработки нет валидных документов для загрузки в Qdrant."
  else .ok documents

/-- The claim's notion of an invalid extraction entry, written from the
spec's words: empty, not an object, `embedding_text` missing, or
`embedding_text` not a string. -/
def specInvalidEntry (item : PyVal) : Bool :=
  match item with
  | .dict kvs =>
    kvs.isEmpty ||
      (match kvs.lookup "embedding_text" with
       | some (.str _) => false
       | _ => true)
  | _ => true

/-- The claim's document for a valid entry: content is the entry's
`embedding_text`, metadata is all remaining fields. -/
def specDocOf (item : PyVal) : IndexedDocument :=
  ⟨(match item.get "embedding_text" with
    | .str s => s
    | _ => ""),
   item.items.filter (fun kv => kv.1 != "embedding_text")⟩

example : specInvalidEntry (.dict [("embedding_text", .str "t")]) = false := by rfl
example : convertStep (.dict [("embedding_text", .str "t"), ("grade", .none)]) =
    some ⟨"t", [("grade", .none)]⟩ := by rfl
example : convert_to_documents [.dict [("embedding_text", .none)]] =
    .error "После обработки нет валидных документов для загрузки в Qdrant." := by rfl

/-! ## CandidateMetadata and its pydantic validation (src/models/candidate.py) -/

/-- `LanguageSkill` from `models/candidate.py`. -/
structure LanguageSkill where
  name : String
  level : Option String
deriving Repr, DecidableEq, Inhabited

/-- `CandidateMetadata` from `models/candidate.py` (floats as rationals). -/
structure CandidateMetadata where
  candidate_id : Int
  location_name : Option String
  positions : List String
  experience_years : Option Rat
  grade : Option String
  hard_skills : List String
  domain_skills : List String
  performed_tasks : List String
  languages : List LanguageSkill
  embedding_text : String
deriving Repr, DecidableEq, Inhabited

/-- The anchored pydantic pattern on `grade`: the whole string is one of
the six grades or empty (the group is optional). -/
def gradePatternOk (s : String) : Bool :=
  s == "" || s == "Intern" || s == "Junior" || s == "Middle" ||
    s == "Senior" || s == "Lead" || s == "Head"

/-- The anchored pydantic pattern on `languages[].level`: one of the seven
levels or empty (the group is optional). -/
def levelPatternOk (s : String) : Bool :=
  s == "" || s == "A1" || s == "A2" || s == "B1" || s == "B2" ||
    s == "C1" || s == "C2" || s == "Native"

/-- Pydantic validation of `LanguageSkill`: the pattern applies only when
`level` is not null. -/
def validLanguageSkill (l : LanguageSkill) : Bool :=
  match l.level with
  | Option.none => true
  | some s => levelPatternOk s

/-- Pydantic validation of `CandidateMetadata`: `grade` pattern (when not
null), `experience_years ≥ 0` (when not null), each language level pattern
(when not null). `embedding_text` is only required to be a string — the
model declares no further constraint on it. -/
def validCandidateMetadata (m : CandidateMetadata) : Bool :=
  (match m.grade with
   | Option.none => true
   | some s => gradePatternOk s) &&
  (match m.experience_years with
   | Option.none => true
   | some e => decide (0 ≤ e)) &&
  m.languages.all validLanguageSkill

/-- The validation rule claimed by the spec, written from its words: grade
in its closed enumeration or null, each level in its closed enumeration or
null, `experience_years ≥ 0` or null, and `embedding_text` a non-empty
string. -/
def specValidCandidateMetadata (m : CandidateMetadata) : Bool :=
  (match m.grade with
   | Option.none => true
   | some s => decide (s ∈ ["Intern", "Junior", "Middle", "Senior", "Lead", "Head"])) &&
  (match m.experience_years with
   | Option.none => true
   | some e => decide (0 ≤ e)) &&
  m.languages.all (fun l =>
    match l.level with
    | Option.none => true
    | some s => decide (s ∈ ["A1", "A2", "B1", "B2", "C1", "C2", "Native"])) &&
  !m.embedding_text.isEmpty

/-- The spec's amended validation rule: the code's anchored optional
patterns also accept the empty string for `grade` and for each level, and
`embedding_text` may be any string, the empty one included. -/
def specAmendedValidCandidateMetadata (m : CandidateMetadata) : Bool :=
  (match m.grade with
   | Option.none => true
   | some s => decide (s ∈ ["", "Intern", "Junior", "Middle", "Senior", "Lead", "Head"])) &&
  (match m.experience_years with
   | Option.none => true
   | some e => decide (0 ≤ e)) &&
  m.languages.all (fun l =>
    match l.level with
    | Option.none => true
    | some s => decide (s ∈ ["", "A1", "A2", "B1", "B2", "C1", "C2", "Native"]))

/-- A source record's personally identifying fields, from the fixed column
set of the candidate repository. -/
structure RawResumeRecord where
  id : Int
  fullname : String
  mobile_phone : String
  email : String
deriving Repr, DecidableEq, Inhabited

example : validCandidateMetadata
    ⟨7, Option.none, [], some 2, some "Senior", [], [], [], [⟨"English", some "B2"⟩], "text"⟩
    = true := by rfl
example : validCandidateMetadata
    ⟨7, Option.none, [], some (-1), Option.none, [], [], [], [], "text"⟩ = false := by rfl
example : validCandidateMetadata
    ⟨7, Option.none, [], Option.none, some "Junior+", [], [], [], [], "text"⟩ = false := by rfl

/-! ## The metadata extractor
(src/services/resume_processor.py, `_call_llm_and_parse`,
`_fix_json_with_llm`, `process_resumes_batch`) -/

/-- The outcome of one chat-model invocation: a response text, or a
transport-level failure (timeout, connection error) raised by the client. -/
inductive LLMResult where
  | ok (content : String)
  | transportError
deriving Repr, Inhabited

/-- The extractor's environment: the n-th chat-model call's outcome, and
the strict schema parse (`PydanticOutputParser.parse`, `none` = raises). -/
structure ExtractorEnv where
  respond : Nat → LLMResult
  strictParse : String → Option CandidateMetadata

/-- Outcome of one attempt of the `_call_llm_and_parse` body: parsed
metadata, or an exception (transport or schema failure). -/
inductive AttemptOutcome where
  | success (md : CandidateMetadata)
  | failed
deriving Repr, DecidableEq, Inhabited

/-- Trace of one attempt of the `_call_llm_and_parse` body starting at
model-call index `i`: its outcome, the model calls it consumed, and how
many repair calls (`_fix_json_with_llm`) it made. -/
structure AttemptTrace where
  outcome : AttemptOutcome
  callsUsed : Nat
  repairCalls : Nat
deriving Repr, DecidableEq, Inhabited

/-- One attempt of the body of `_call_llm_and_parse`: invoke the model,
strict-parse; on parse failure run `_fix_json_with_llm` (exactly one more
model invocation) and strict-parse its output; a second failure re-raises.
A transport error in either invocation is an exception of the attempt. -/
def runAttempt (env : ExtractorEnv) (i : Nat) : AttemptTrace :=
  match env.respond i with
  | .transportError => ⟨.failed, 1, 0⟩
  | .ok raw =>
    match env.strictParse raw with
    | some md => ⟨.success md, 1, 0⟩
    | Option.none =>
      match env.respond (i + 1) with
      | .transportError => ⟨.failed, 2, 1⟩
      | .ok fixed =>
        match env.strictParse fixed with
        | some md => ⟨.success md, 2, 1⟩
        | Option.none => ⟨.failed, 2, 1⟩

/-- Final state of one extraction. -/
inductive ExtractOutcome where
  | Success (md : CandidateMetadata)
  | Failed
deriving Repr, DecidableEq, Inhabited

/-- Trace of a full `_call_llm_and_parse` call: final state, total model
calls, total repair calls, attempts made, and the backoff waits (in
seconds) taken between attempts. -/
structure ExtractTrace where
  outcome : ExtractOutcome
  modelCalls : Nat
  repairCalls : Nat
  attempts : Nat
  waits : List Nat
deriving Repr, DecidableEq, Inhabited

/-- `_call_llm_and_parse` under its tenacity decorator
`retry(stop=stop_after_attempt(3), wait=wait_fixed(1))`: the whole body —
primary invocation, strict parse, and the repair orchestration — is one
attempt; any exception triggers a retry after a fixed 1-second wait, up to
3 attempts, after which the exception propagates. -/
def call_llm_and_parse (env : ExtractorEnv) : ExtractTrace :=
  let a1 := runAttempt env 0
  match a1.outcome with
  | .success md => ⟨.Success md, a1.callsUsed, a1.repairCalls, 1, []⟩
  | .failed =>
    let a2 := runAttempt env a1.callsUsed
    match a2.outcome with
    | .success md =>
      ⟨.Success md, a1.callsUsed + a2.callsUsed, a1.repairCalls + a2.repairCalls, 2, [1]⟩
    | .failed =>
      let a3 := runAttempt env (a1.callsUsed + a2.callsUsed)
      match a3.outcome with
      | .success md =>
        ⟨.Success md, a1.callsUsed + a2.callsUsed + a3.callsUsed,
          a1.repairCalls + a2.repairCalls + a3.repairCalls, 3, [1, 1]⟩
      | .failed =>
        ⟨.Failed, a1.callsUsed + a2.callsUsed + a3.callsUsed,
          a1.repairCalls + a2.repairCalls + a3.repairCalls, 3, [1, 1]⟩

/-- `process_resumes_batch`: each résumé is extracted independently; a
failed extraction is logged and skipped, the successes are collected in
order (`parsed.model_dump()` is modelled by the metadata itself). -/
def process_resumes_batch (envs : List ExtractorEnv) : List CandidateMetadata :=
  envs.filterMap fun env =>
    match (call_llm_and_parse env).outcome with
    | .Success md => some md
    | .Failed => Option.none

/-- A concrete metadata value used by witnesses and counterexamples. -/
def mdSample : CandidateMetadata :=
  ⟨1, Option.none, ["Backend Developer"], some 3, some "Middle", [], [], [], [], "профиль"⟩

/-- Environment whose first two responses fail the strict parse and whose
third parses: first attempt consumes a primary call and a repair call and
fails, second attempt's primary call succeeds. -/
def envRepairFailsThenOk : ExtractorEnv :=
  ⟨fun n => if n == 0 || n == 1 then .ok "BROKEN" else .ok "GOOD",
   fun s => if s == "GOOD" then some mdSample else Option.none⟩

/-- Environment in which every response fails the strict parse. -/
def envAllBroken : ExtractorEnv :=
  ⟨fun _ => .ok "BROKEN", fun _ => Option.none⟩

example : call_llm_and_parse envRepairFailsThenOk =
    ⟨.Success mdSample, 3, 1, 2, [1]⟩ := by rfl
example : call_llm_and_parse envAllBroken = ⟨.Failed, 6, 3, 3, [1, 1]⟩ := by rfl

/-! ## The vector index service
(src/services/vector_store.py, `search_with_filter`) -/

/-- A Qdrant filter condition as built by `search_with_filter`: a numeric
`Range(gte=v)` or an exact `match {value}` on a payload key. -/
inductive QCondition where
  | rangeGte (key : String) (v : Rat)
  | matchValue (key : String) (v : String)
deriving Repr, Inhabited

/-- A Qdrant filter: all `must` conditions hold. -/
structure QFilter where
  must : List QCondition
deriving Repr, Inhabited

/-- Payload lookup for keys of the form `metadata.<field>`, which is how
langchain stores a document's metadata dict in the Qdrant payload. -/
def payloadValue (d : IndexedDocument) (key : String) : Option PyVal :=
  if pyContains key "metadata." ∧ pyFind key "metadata." 0 = some 0 then
    d.metadata.lookup (pySlice key 9 (key.data.length : Int))
  else Option.none

/-- Whether one condition holds of a document's payload: a `Range(gte=v)`
requires a numeric value `≥ v`; a value match requires exact equality. -/
def condHolds (d : IndexedDocument) : QCondition → Bool
  | .rangeGte key v =>
    (match payloadValue d key with
     | some (.int n) => decide (v ≤ (n : Rat))
     | some (.float q) => decide (v ≤ q)
     | _ => false)
  | .matchValue key s =>
    match payloadValue d key with
    | some (.str t) => t == s
    | _ => false

/-- Whether a document passes an optional filter (no filter passes all). -/
def filterHolds (d : IndexedDocument) : Option QFilter → Bool
  | Option.none => true
  | some f => f.must.all (condHolds d)

/-- Descending-score order on retrieved matches. -/
def scoreDesc (a b : IndexedDocument × Rat) : Prop := b.2 ≤ a.2

instance : DecidableRel scoreDesc := fun a b => inferInstanceAs (Decidable (b.2 ≤ a.2))

instance : IsTotal (IndexedDocument × Rat) scoreDesc :=
  ⟨fun a b => le_total b.2 a.2⟩

instance : IsTrans (IndexedDocument × Rat) scoreDesc :=
  ⟨fun _ _ _ hab hbc => le_trans hbc hab⟩

/-- Modelled from the spec: the external Qdrant similarity search
(`similarity_search_with_relevance_scores`) — an external collaborator, not
repository code. It scores every stored document against the query, keeps
those passing the filter, and returns at most `k` matches ordered by
descending relevance score. The query's influence is abstracted into the
scoring function. -/
def similaritySearch (collection : List IndexedDocument) (score : IndexedDocument → Rat)
    (k : Nat) (qfilter : Option QFilter) : List (IndexedDocument × Rat) :=
  let hits := (collection.filter (fun d => filterHolds d qfilter)).map fun d => (d, score d)
  (hits.insertionSort scoreDesc).take k

/-- `search_with_filter` from `vector_store.py`: build the `must`
conditions from the optional minimum experience and exact grade, wrap them
in a filter only when at least one is present, and run the store search. -/
def search_with_filter (collection : List IndexedDocument) (score : IndexedDocument → Rat)
    (k : Nat) (experience_years_min : Option Rat) (grade : Option String) :
    List (IndexedDocument × Rat) :=
  let filter_conditions :=
    (match experience_years_min with
     | some v => [QCondition.rangeGte "metadata.experience_years" v]
     | Option.none => []) ++
    (match grade with
     | some g => [QCondition.matchValue "metadata.grade" g]
     | Option.none => [])
  let qdrant_filter : Option QFilter :=
    if filter_conditions.isEmpty then Option.none else some ⟨filter_conditions⟩
  similaritySearch collection score k qdrant_filter

example :
    payloadValue ⟨"t", [("experience_years", .float 5)]⟩ "metadata.experience_years" =
      some (.float 5) := by rfl
example :
    condHolds ⟨"t", [("experience_years", .float 5)]⟩
      (.rangeGte "metadata.experience_years" 3) = true := by rfl
example :
    condHolds ⟨"t", [("grade", .str "Senior")]⟩
      (.matchValue "metadata.grade" "Senior") = true := by rfl

/-! ## The search orchestrator
(src/services/candidate_search.py, `search_candidates`) -/

/-- One row of the candidate system of record, with the fields
`search_candidates` reads (`none` models a missing column). -/
structure CandidateRow where
  id : Int
  fullname : String
  mobile_phone : Option String
  location_name : Option String
deriving Repr, DecidableEq, Inhabited

/-- `_build_candidate_context`: the textual context for one resolved
candidate. -/
def build_candidate_context (doc : IndexedDocument) (row : CandidateRow) : String :=
  "Имя: " ++ row.fullname ++ "\nТелефон: " ++ row.mobile_phone.getD "не указан" ++
    "\nЛокация: " ++ row.location_name.getD "не указана" ++ "\nРезюме:\n" ++ doc.page_content

/-- `doc.metadata.get("candidate_id")` followed by the `is None` check and
the pandas `df["id"] == candidate_id` comparison: only an integer id can
match the integer `id` column. -/
def IndexedDocument.candidateId (doc : IndexedDocument) : Option Int :=
  match doc.metadata.lookup "candidate_id" with
  | some (.int n) => some n
  | _ => Option.none

/-- Resolution of one retrieved match against the system of record: skip
when the metadata has no `candidate_id` (absent key or stored `None`), and
skip when no row of the record store carries that id; otherwise build the
candidate context from the first matching row. -/
def resolveContext (db : List CandidateRow) (doc : IndexedDocument) : Option String :=
  match doc.candidateId with
  | Option.none => Option.none
  | some n =>
    match db.filter (fun r => r.id == n) with
    | [] => Option.none
    | row :: _ => some (build_candidate_context doc row)

/-- `search_candidates` from `candidate_search.py`, with the vector-store
result, the record store and the evaluation model's response text passed as
oracles: an empty retrieval or an empty set of resolved contexts returns an
empty list; otherwise the batched evaluation response is parsed and any
parse failure fails the whole request. -/
def search_candidates (docs_with_scores : List (IndexedDocument × Rat))
    (db : List CandidateRow) (llm_response : String) : Except String (List EvalItem) :=
  if docs_with_scores.isEmpty then .ok []
  else
    let contexts := docs_with_scores.filterMap fun ds => resolveContext db ds.1
    if contexts.isEmpty then .ok []
    else parse_llm_response llm_response

/-! ## The résumé parser (src/utils/utils.py, `build_resume_row` and the
normalization helpers) -/

/-- `re.sub(r"\s+", " ", text)`: collapse each whitespace run to one
space (fuel-indexed; the fuel is the character count, and every step
consumes at least one character). -/
def collapseWsF : Nat → List Char → List Char
  | _, [] => []
  | 0, _ => []
  | fuel + 1, c :: cs =>
    if c.isWhitespace then ' ' :: collapseWsF fuel (cs.dropWhile Char.isWhitespace)
    else c :: collapseWsF fuel cs

/-- `text.replace("..", ".")`: left-to-right non-overlapping replacement. -/
def replaceDotsF : Nat → List Char → List Char
  | _, [] => []
  | 0, _ => []
  | fuel + 1, c :: cs =>
    match c, cs with
    | '.', '.' :: rest => '.' :: replaceDotsF fuel rest
    | _, _ => c :: replaceDotsF fuel cs

/-- `re.sub(r"\s*;\s*", "; ", text)`: leftmost non-overlapping matches of a
semicolon with surrounding whitespace. -/
def subSemiF : Nat → List Char → List Char
  | _, [] => []
  | 0, _ => []
  | fuel + 1, c :: cs =>
    match (c :: cs).dropWhile Char.isWhitespace with
    | ';' :: rest => ';' :: ' ' :: subSemiF fuel (rest.dropWhile Char.isWhitespace)
    | _ => c :: subSemiF fuel cs

/-- `re.sub(r"\.\s*;\s*", ". ", text)`: a dot, then a semicolon with
surrounding whitespace. -/
def subDotSemiF : Nat → List Char → List Char
  | _, [] => []
  | 0, _ => []
  | fuel + 1, c :: cs =>
    if c == '.' then
      match cs.dropWhile Char.isWhitespace with
      | ';' :: rest => '.' :: ' ' :: subDotSemiF fuel (rest.dropWhile Char.isWhitespace)
      | _ => c :: subDotSemiF fuel cs
    else c :: subDotSemiF fuel cs

/-- `norm_line` from `utils.py`: whitespace collapse, `".."` replacement,
semicolon spacing, dot-semicolon cleanup, then strip. -/
def norm_line (text : String) : String :=
  let s1 := collapseWsF text.data.length text.data
  let s2 := replaceDotsF s1.length s1
  let s3 := subSemiF s2.length s2
  let s4 := subDotSemiF s3.length s3
  pyStrip (String.mk s4)

/-- Python `text.split("\n")`: split on every newline, keeping empty
segments. -/
def splitNl : List Char → List String
  | [] => [""]
  | c :: rest =>
    let r := splitNl rest
    if c == '\n' then "" :: r
    else
      match r with
      | s :: ss => String.mk (c :: s.data) :: ss
      | [] => [String.mk [c]]

/-- `norm_multiline` from `utils.py`: normalize each line, then drop empty
lines from both ends. -/
def norm_multiline (text : String) : String :=
  let lines := (splitNl text.data).map norm_line
  let lines := lines.dropWhile (· == "")
  let lines := (lines.reverse.dropWhile (· == "")).reverse
  String.intercalate "\n" lines

/-- `safe_str` from `utils.py`: empty for a missing value (`pd.isna`),
otherwise the stripped string. -/
def safe_str (x : Option String) : String :=
  match x with
  | Option.none => ""
  | some s => pyStrip s

/-- The section texts that the BeautifulSoup helpers
(`parse_common_info_from_html`, `parse_about_from_html`,
`parse_experience_from_html`, `parse_skills_from_html`,
`parse_languages_from_html`, `parse_education_core_from_html`,
`parse_additional_education_specialties_from_html`) extract from present
markup. Markup parsing itself is delegated to the external bs4 library, so
its output is the boundary of the embedding. -/
structure ParsedHtmlSections where
  desired_position : String
  total_experience : String
  education_short : String
  location_name : String
  about_text : String
  experience_text : String
  skills_text : String
  languages_text : String
  edu_core_list : List String
  add_specs_list : List String
deriving Repr, DecidableEq, Inhabited

/-- A row of the résumé dataframe as read by `build_resume_row`: flat
fields (`none` models a null/NaN cell) and the markup column, where `none`
models markup that is null, NaN or empty — exactly the rows on which
`not html or pd.isna(html)` holds. -/
structure ResumeRow where
  id : Option String
  html : Option ParsedHtmlSections
  profession_name_1 : Option String
  profession_name_2 : Option String
  last_job_position_name : Option String
  location_name : Option String
deriving Repr, DecidableEq, Inhabited

/-- The duplicate-dropping loop of `build_resume_row`: strip each entry,
keep non-empty first occurrences in order. -/
def dedupEducation (items : List String) : List String :=
  items.foldl
    (fun acc item =>
      let itemNorm := pyStrip item
      if !itemNorm.isEmpty && !acc.contains itemNorm then acc ++ [itemNorm] else acc)
    []

/-- Python `a or b` for strings: `b` when `a` is empty. -/
def strOr (a b : String) : String := if a.isEmpty then b else a

/-- `build_resume_row` from `utils.py`: with no usable markup, return the
fallback text built from the flat fields alone (note the source appends no
newline after the last-position line, so the next line is glued to it);
with markup, assemble the section texts and normalize. -/
def build_resume_row (row : ResumeRow) : String :=
  let id_ := safe_str row.id
  let profession_name_1 := safe_str row.profession_name_1
  let profession_name_2 := safe_str row.profession_name_2
  let last_job_position_name := safe_str row.last_job_position_name
  let location_name_estaff := safe_str row.location_name
  let profession_full :=
    if !profession_name_1.isEmpty then
      if !profession_name_2.isEmpty then profession_name_1 ++ ", " ++ profession_name_2
      else profession_name_1
    else "не указано"
  match row.html with
  | Option.none =>
    "=== ОБЩАЯ ИНФОРМАЦИЯ ===\n" ++
      "ID кандидата: " ++ id_ ++ "\n" ++
      "Образование: не указано\n" ++
      "Желаемая должность: не указано\n" ++
      "Общее название профессии: " ++ profession_full ++ "\n" ++
      "Должность на последнем месте: " ++ strOr last_job_position_name "не указано" ++
      "Общий опыт работы: не указано\n" ++
      "Локация: " ++ strOr location_name_estaff "не указано"
  | some sections =>
    let desired_position := sections.desired_position
    let total_experience := sections.total_experience
    let education_short := sections.education_short
    let location_name_html := sections.location_name
    let main_education_final :=
      let u := dedupEducation sections.edu_core_list
      if !u.isEmpty then String.intercalate "; " u else "не указано"
    let add_education_final :=
      let u := dedupEducation sections.add_specs_list
      if !u.isEmpty then String.intercalate "; " u else "не указано"
    let parts : List String :=
      ["=== ОБЩАЯ ИНФОРМАЦИЯ ===",
       "ID кандидата: " ++ id_,
       "Образование: " ++ education_short,
       "Желаемая должность: " ++ strOr desired_position "не указано",
       "Общее название профессии: " ++ profession_full,
       "Должность на последнем месте: " ++ strOr last_job_position_name "не указано",
       "Общий опыт работы: " ++ strOr total_experience "не указано",
       "Локация: " ++ strOr location_name_estaff (strOr location_name_html "не указано"),
       "\n=== О СЕБЕ ===",
       "Описание кандидата: " ++ strOr sections.about_text "не указано",
       "\n=== ОБУЧЕНИЕ ===",
       "Основное образование: " ++ main_education_final,
       "Дополнительное образование: " ++ add_education_final,
       "\n=== ОПЫТ РАБОТЫ ===",
       sections.experience_text,
       "\n=== КЛЮЧЕВЫЕ НАВЫКИ ===",
       "Список ключевых навыков: " ++ strOr sections.skills_text "не указано",
       "\n=== ЯЗЫКИ ===",
       "Список языков: " ++ strOr sections.languages_text "не указано"]
    norm_multiline (String.intercalate "\n" parts)

/-- The fallback-only text of the claim, written from the spec's words:
built purely from the structured flat fields (id, profession names, last
job position, location) with "not specified" sentinels for missing
sections, in the exact shape the source emits. -/
def fallbackOnlyText (row : ResumeRow) : String :=
  let profession_full :=
    if !(safe_str row.profession_name_1).isEmpty then
      if !(safe_str row.profession_name_2).isEmpty then
        safe_str row.profession_name_1 ++ ", " ++ safe_str row.profession_name_2
      else safe_str row.profession_name_1
    else "не указано"
  "=== ОБЩАЯ ИНФОРМАЦИЯ ===\n" ++
    "ID кандидата: " ++ safe_str row.id ++ "\n" ++
    "Образование: не указано\n" ++
    "Желаемая должность: не указано\n" ++
    "Общее название профессии: " ++ profession_full ++ "\n" ++
    "Должность на последнем месте: " ++ strOr (safe_str row.last_job_position_name) "не указано" ++
    "Общий опыт работы: не указано\n" ++
    "Локация: " ++ strOr (safe_str row.location_name) "не указано"

example : norm_line "  a   b ;c  " = "a b; c" := by rfl
example : norm_multiline "\n\n x \n\n" = "x" := by rfl
example :
    build_resume_row ⟨some "5", Option.none, some "Dev", Option.none, Option.none, Option.none⟩ =
      "=== ОБЩАЯ ИНФОРМАЦИЯ ===\nID кандидата: 5\nОбразование: не указано\nЖелаемая должность: не указано\nОбщее название профессии: Dev\nДолжность на последнем месте: не указаноОбщий опыт работы: не указано\nЛокация: не указано" := by
  rfl

/-! ## Further definitions used by the claims -/

/-- The per-element acceptance test of the bare-array branch: a dict must
construct a valid `CandidateEvaluation`; any other value passes through. -/
def acceptableItem (j : Json) : Bool :=
  match j with
  | .obj flds => (mkCandidateEvaluation flds).isSome
  | _ => true

/-- The per-element acceptance test of the `candidates` / first-list-value
branches: only a dict constructing a valid `CandidateEvaluation` passes. -/
def strictAcceptableItem (j : Json) : Bool :=
  match j with
  | .obj flds => (mkCandidateEvaluation flds).isSome
  | _ => false

/-- Whether a JSON value is an object (`isinstance(item, dict)`). -/
def Json.isObj : Json → Bool
  | .obj _ => true
  | _ => false

/-- The claim's notion of a match that fails candidate-id resolution
against the system of record: no usable `candidate_id` in the metadata, or
no record row carrying that id. -/
def specUnresolved (db : List CandidateRow) (doc : IndexedDocument) : Prop :=
  doc.candidateId = Option.none ∨
    ∃ n, doc.candidateId = some n ∧ ∀ r ∈ db, r.id ≠ n

/-- The numeric metadata value a range filter reads. -/
def metaNumericValue (d : IndexedDocument) (key : String) : Option Rat :=
  match d.metadata.lookup key with
  | some (.int n) => some (n : Rat)
  | some (.float q) => some q
  | _ => Option.none

/-! ### Concrete fixtures for witnesses and counterexamples -/

/-- Environment whose primary call fails the strict parse and whose repair
call's output parses. -/
def envFirstFailsRepairOk : ExtractorEnv :=
  ⟨fun n => if n == 0 then .ok "BROKEN" else .ok "GOOD",
   fun s => if s == "GOOD" then some mdSample else Option.none⟩

/-- A bare JSON array that happens to contain a fence marker inside one of
its strings. -/
def bareArrayWithFence : String := "[\"x```y\"]"

/-- A metadata record that pydantic accepts although its grade, one
language level and its `embedding_text` are all the empty string. -/
def mdEmptyFields : CandidateMetadata :=
  ⟨2, Option.none, [], some 0, some "", [], [], [], [⟨"English", some ""⟩], ""⟩

/-- A source record with personally identifying fields. -/
def recIvan : RawResumeRecord := ⟨1, "Ivan Ivanov", "+7 900 000-00-00", "ivan@example.com"⟩

/-- A metadata record that pydantic accepts although its `embedding_text`
contains the source record's full name and email verbatim. -/
def mdLeaky : CandidateMetadata :=
  ⟨1, Option.none, ["Backend Developer"], some 3, some "Senior", [], [], [], [],
   "Ivan Ivanov, Senior backend developer, ivan@example.com"⟩

/-- A record-store row for the resolution fixtures. -/
def rowIvan : CandidateRow := ⟨1, "Ivan Ivanov", some "+7 900", some "Москва"⟩

/-- A retrieved document whose `candidate_id` resolves against `rowIvan`. -/
def docResolved : IndexedDocument :=
  ⟨"профиль", [("candidate_id", .int 1), ("experience_years", .float 5), ("grade", .str "Senior")]⟩

/-- A retrieved document whose `candidate_id` resolves against no row. -/
def docUnresolved : IndexedDocument :=
  ⟨"другой профиль", [("candidate_id", .int 99)]⟩

/-- An evaluation response carrying exactly one candidate object. -/
def evalRespOne : String :=
  "[\x7b\"name\": \"Ivan Ivanov\", \"phone\": \"+7 900\", \"location\": \"Москва\", \"hard_skills_score\": 8, \"domain_skills_score\": 7, \"relevance_score\": 9, \"relevance_explanation\": \"ok\"\x7d]"

/-- The evaluation record `evalRespOne` denotes. -/
def evalIvan : CandidateEvaluation := ⟨"Ivan Ivanov", "+7 900", "Москва", 8, 7, 9, "ok"⟩

/-- A mixed assembler batch: one valid entry, one falsy entry, one entry
whose `embedding_text` is `None`. -/
def entriesMixed : List PyVal :=
  [.dict [("embedding_text", .str "t"), ("grade", .none)], .str "", .dict [("embedding_text", .none)]]

/-- The document the valid entry of `entriesMixed` produces. -/
def docOfMixed : IndexedDocument := ⟨"t", [("grade", PyVal.none)]⟩

/-- A three-document collection for the filtered-search fixtures. -/
def collThree : List IndexedDocument :=
  [⟨"профиль A", [("candidate_id", .int 1), ("experience_years", .float 5), ("grade", .str "Senior")]⟩,
   ⟨"профиль B", [("candidate_id", .int 2), ("experience_years", .float 2), ("grade", .str "Senior")]⟩,
   ⟨"профиль C", [("candidate_id", .int 3), ("experience_years", .float 7), ("grade", .str "Middle")]⟩]

/-- A deterministic scoring function standing in for query similarity. -/
def scoreByLen (d : IndexedDocument) : Rat := (d.page_content.length : Rat)

/-- A row with no markup, used by the parser fallback witness. -/
def rowNoHtml : ResumeRow :=
  ⟨some " 5 ", Option.none, some "Dev", Option.none, some "Lead Engineer", Option.none⟩

example : parse_llm_response evalRespOne = .ok [.eval evalIvan] := by rfl

/-! ## Helper lemmas -/

/-- Any mix of schema-parse failures and transport failures makes an
attempt fail. -/
theorem runAttempt_failed_of_parse_none (env : ExtractorEnv)
    (h : ∀ n r, env.respond n = .ok r → env.strictParse r = Option.none) (i : Nat) :
    (runAttempt env i).outcome = .failed := by
  unfold runAttempt
  cases h0 : env.respond i with
  | transportError => rfl
  | ok raw =>
    simp only [h i raw h0]
    cases h1 : env.respond (i + 1) with
    | transportError => rfl
    | ok fixed => simp only [h (i + 1) fixed h1]

/-- One attempt makes at most one repair call. -/
theorem runAttempt_repairCalls_le_one (env : ExtractorEnv) (i : Nat) :
    (runAttempt env i).repairCalls ≤ 1 := by
  unfold runAttempt
  cases h0 : env.respond i with
  | transportError => simp
  | ok raw =>
    cases h1 : env.strictParse raw with
    | some md => simp [h1]
    | none =>
      simp only [h1]
      cases h2 : env.respond (i + 1) with
      | transportError => simp
      | ok fixed =>
        cases h3 : env.strictParse fixed with
        | some md => simp [h3]
        | none => simp [h3]

/-! ## C1 — extractor state machine and batch boundary -/

/-- C1 (amended): (1) when the first strict parse fails and the single
repair call's output parses, the extraction ends in `Success` with exactly
2 model calls recorded (one repair call, on the first attempt, with no
backoff wait); (2) when every model response fails the strict parse — so in
particular every repair output fails too — the extraction ends in `Failed`;
(3) a `Failed` item is excluded from the batch and the batch continues with
the remaining items on both sides of it. -/
theorem C1_extractor_repair_protocol :
    (∀ (env : ExtractorEnv) (r0 r1 : String) (md : CandidateMetadata),
      env.respond 0 = .ok r0 → env.strictParse r0 = Option.none →
      env.respond 1 = .ok r1 → env.strictParse r1 = some md →
      call_llm_and_parse env = ⟨.Success md, 2, 1, 1, []⟩) ∧
    (∀ env : ExtractorEnv,
      (∀ n r, env.respond n = .ok r → env.strictParse r = Option.none) →
      (call_llm_and_parse env).outcome = .Failed) ∧
    (∀ (pre post : List ExtractorEnv) (env : ExtractorEnv),
      (call_llm_and_parse env).outcome = .Failed →
      process_resumes_batch (pre ++ env :: post) =
        process_resumes_batch pre ++ process_resumes_batch post) := by
  refine ⟨?_, ?_, ?_⟩
  · intro env r0 r1 md h0 h1 h2 h3
    have ha : runAttempt env 0 = ⟨.success md, 2, 1⟩ := by
      unfold runAttempt
      rw [h0]
      simp only [h1]
      rw [show (0 : Nat) + 1 = 1 from rfl, h2]
      simp only [h3]
    simp [call_llm_and_parse, ha]
  · intro env h
    unfold call_llm_and_parse
    simp only [runAttempt_failed_of_parse_none env h]
  · intro pre post env h
    unfold process_resumes_batch
    rw [List.filterMap_append, List.filterMap_cons]
    simp only [h]

/-- C1 counterexample to the claim as stated: a run in which the first
attempt's repair output fails the strict parse (the attempt fails after
making its one repair call on a transport-clean response), yet the
extraction does not end in `Failed` — the decorator retries the whole body
and the second attempt succeeds. -/
theorem C1_counterexample_repair_failure_not_final :
    (runAttempt envRepairFailsThenOk 0).outcome = .failed ∧
    (runAttempt envRepairFailsThenOk 0).repairCalls = 1 ∧
    envRepairFailsThenOk.respond 1 = .ok "BROKEN" ∧
    envRepairFailsThenOk.strictParse "BROKEN" = Option.none ∧
    (call_llm_and_parse envRepairFailsThenOk).outcome = .Success mdSample := by
  refine ⟨by rfl, by rfl, by rfl, by rfl, by rfl⟩

/-- Witness for C1 at concrete environments. -/
theorem C1_witness :
    call_llm_and_parse envFirstFailsRepairOk = ⟨.Success mdSample, 2, 1, 1, []⟩ ∧
    (call_llm_and_parse envAllBroken).outcome = .Failed ∧
    process_resumes_batch ([envFirstFailsRepairOk] ++ envAllBroken :: [envFirstFailsRepairOk]) =
      process_resumes_batch [envFirstFailsRepairOk] ++
        process_resumes_batch [envFirstFailsRepairOk] :=
  ⟨C1_extractor_repair_protocol.1 envFirstFailsRepairOk "BROKEN" "GOOD" mdSample
      (by rfl) (by rfl) (by rfl) (by rfl),
   C1_extractor_repair_protocol.2.1 envAllBroken (fun _ _ _ => rfl),
   C1_extractor_repair_protocol.2.2 [envFirstFailsRepairOk] [envFirstFailsRepairOk] envAllBroken
      (C1_extractor_repair_protocol.2.1 envAllBroken (fun _ _ _ => rfl))⟩

/-! ## C2 — the retry decorator -/

/-- C2 (amended): the tenacity retry wraps the whole call-and-parse body —
primary invocation, strict parse, and the repair orchestration — not each
individual invocation: at most 3 attempts are made, with a fixed 1-second
wait recorded before every retry; within each attempt the repair helper
runs at most once (it has no retry of its own), so the repair count is
bounded by the attempt count and can reach 3 per extraction. -/
theorem C2_retry_wraps_whole_body (env : ExtractorEnv) :
    (call_llm_and_parse env).attempts ≤ 3 ∧
    (call_llm_and_parse env).repairCalls ≤ (call_llm_and_parse env).attempts ∧
    (call_llm_and_parse env).waits =
      List.replicate ((call_llm_and_parse env).attempts - 1) 1 ∧
    (∀ i, (runAttempt env i).repairCalls ≤ 1) := by
  have r0 := runAttempt_repairCalls_le_one env 0
  have r1 := runAttempt_repairCalls_le_one env (runAttempt env 0).callsUsed
  have r2 := runAttempt_repairCalls_le_one env
    ((runAttempt env 0).callsUsed + (runAttempt env (runAttempt env 0).callsUsed).callsUsed)
  unfold call_llm_and_parse
  cases h1 : (runAttempt env 0).outcome with
  | success md =>
    simp only [h1]
    exact ⟨by omega, by omega, by rfl, runAttempt_repairCalls_le_one env⟩
  | failed =>
    simp only [h1]
    cases h2 : (runAttempt env (runAttempt env 0).callsUsed).outcome with
    | success md =>
      simp only [h2]
      exact ⟨by omega, by omega, by rfl, runAttempt_repairCalls_le_one env⟩
    | failed =>
      simp only [h2]
      cases h3 : (runAttempt env
          ((runAttempt env 0).callsUsed +
            (runAttempt env (runAttempt env 0).callsUsed).callsUsed)).outcome with
      | success md =>
        simp only [h3]
        exact ⟨by omega, by omega, by rfl, runAttempt_repairCalls_le_one env⟩
      | failed =>
        simp only [h3]
        exact ⟨by omega, by omega, by rfl, runAttempt_repairCalls_le_one env⟩

/-- C2 counterexample to the claim as stated: an environment with no
transport failure at all, in which every response fails the schema parse,
drives 3 repair calls in one extraction — the repair step is repeated
(once per attempt of the retried body), and the retries fire on schema
failures, not transport failures. -/
theorem C2_counterexample_three_repairs :
    (call_llm_and_parse envAllBroken).repairCalls = 3 ∧
    (call_llm_and_parse envAllBroken).attempts = 3 ∧
    (call_llm_and_parse envAllBroken).outcome = .Failed ∧
    envAllBroken.respond 0 = .ok "BROKEN" := by
  refine ⟨by rfl, by rfl, by rfl, by rfl⟩

/-- Witness for C2 at a concrete environment. -/
theorem C2_witness :
    (call_llm_and_parse envAllBroken).attempts ≤ 3 ∧
    (call_llm_and_parse envAllBroken).repairCalls ≤ (call_llm_and_parse envAllBroken).attempts :=
  ⟨(C2_retry_wraps_whole_body envAllBroken).1, (C2_retry_wraps_whole_body envAllBroken).2.1⟩

/-! ## C3 — the document assembler -/

/-- An entry is skipped exactly when it is invalid in the claim's sense. -/
theorem convertStep_eq_none_iff (item : PyVal) :
    convertStep item = Option.none ↔ specInvalidEntry item = true := by
  cases item with
  | dict kvs =>
    cases hE : kvs.isEmpty with
    | true =>
      simp [convertStep, specInvalidEntry, PyVal.truthy, hE]
    | false =>
      cases hkv : kvs.lookup "embedding_text" with
      | none =>
        simp [convertStep, specInvalidEntry, PyVal.truthy, PyVal.isDict, PyVal.get, hE, hkv]
      | some v =>
        cases v <;>
          simp [convertStep, specInvalidEntry, PyVal.truthy, PyVal.isDict, PyVal.get, hE, hkv]
  | none => simp [convertStep, specInvalidEntry, PyVal.truthy]
  | bool b => cases b <;> simp [convertStep, specInvalidEntry, PyVal.truthy, PyVal.isDict]
  | int n =>
    by_cases h : n = 0 <;> simp [convertStep, specInvalidEntry, PyVal.truthy, PyVal.isDict, h]
  | float q =>
    by_cases h : q = 0 <;> simp [convertStep, specInvalidEntry, PyVal.truthy, PyVal.isDict, h]
  | str s =>
    by_cases h : s.isEmpty <;> simp [convertStep, specInvalidEntry, PyVal.truthy, PyVal.isDict, h]
  | list xs =>
    by_cases h : xs.isEmpty <;> simp [convertStep, specInvalidEntry, PyVal.truthy, PyVal.isDict, h]

/-- A valid entry is converted into exactly the claim's document. -/
theorem convertStep_eq_some_specDocOf (item : PyVal) (h : specInvalidEntry item = false) :
    convertStep item = some (specDocOf item) := by
  cases item with
  | dict kvs =>
    simp only [specInvalidEntry, Bool.or_eq_false_iff] at h
    obtain ⟨h1, h2⟩ := h
    cases hkv : kvs.lookup "embedding_text" with
    | none => rw [hkv] at h2; simp at h2
    | some v =>
      cases v <;> rw [hkv] at h2 <;> simp at h2
      case str s =>
        simp [convertStep, specDocOf, PyVal.truthy, PyVal.isDict, PyVal.get, PyVal.items, hkv, h1]
  | none => simp [specInvalidEntry] at h
  | bool b => simp [specInvalidEntry] at h
  | int n => simp [specInvalidEntry] at h
  | float q => simp [specInvalidEntry] at h
  | str s => simp [specInvalidEntry] at h
  | list xs => simp [specInvalidEntry] at h

/-- The assembler's kept documents are exactly the claim's documents of the
valid entries, in order. -/
theorem filterMap_convertStep_eq (rs : List PyVal) :
    rs.filterMap convertStep =
      (rs.filter (fun i => !specInvalidEntry i)).map specDocOf := by
  induction rs with
  | nil => rfl
  | cons a l ih =>
    cases ha : specInvalidEntry a with
    | true =>
      rw [List.filterMap_cons, (convertStep_eq_none_iff a).mpr ha]
      simp [List.filter_cons, ha, ih]
    | false =>
      rw [List.filterMap_cons, convertStep_eq_some_specDocOf a ha]
      simp [List.filter_cons, ha, ih]

/-- Splitting a list by a boolean predicate preserves its length. -/
theorem length_filter_add_length_filter_not {α : Type} (p : α → Bool) (l : List α) :
    (l.filter p).length + (l.filter (fun a => !p a)).length = l.length := by
  induction l with
  | nil => rfl
  | cons a l ih =>
    cases h : p a <;> simp [List.filter_cons, h, ← ih] <;> omega

/-- C3: the assembler skips exactly the invalid entries — it errors iff
every entry is invalid, and on success it returns one document per valid
entry (`N − M` of them), each carrying the entry's `embedding_text` as
content and all remaining fields as metadata. -/
theorem C3_assembler_skips_exactly_invalid (rs : List PyVal) :
    ((∃ e, convert_to_documents rs = .error e) ↔ ∀ item ∈ rs, specInvalidEntry item = true) ∧
    (∀ docs, convert_to_documents rs = .ok docs →
      docs = (rs.filter (fun i => !specInvalidEntry i)).map specDocOf ∧
      docs.length = rs.length - (rs.filter specInvalidEntry).length) := by
  constructor
  · constructor
    · rintro ⟨e, he⟩ item hitem
      simp only [convert_to_documents] at he
      split at he
      · next hEmpty =>
        rw [List.isEmpty_iff] at hEmpty
        have := List.filterMap_eq_nil_iff.mp hEmpty item hitem
        exact (convertStep_eq_none_iff item).mp this
      · exact absurd he (by simp)
    · intro h
      refine ⟨"После обработки нет валидных документов для загрузки в Qdrant.", ?_⟩
      unfold convert_to_documents
      have : rs.filterMap convertStep = [] :=
        List.filterMap_eq_nil_iff.mpr fun a ha => (convertStep_eq_none_iff a).mpr (h a ha)
      simp [this]
  · intro docs hdocs
    simp only [convert_to_documents] at hdocs
    split at hdocs
    · exact absurd hdocs (by simp)
    · have hda : docs = rs.filterMap convertStep := by
        cases hdocs; rfl
      constructor
      · rw [hda, filterMap_convertStep_eq]
      · rw [hda, filterMap_convertStep_eq, List.length_map]
        have := length_filter_add_length_filter_not specInvalidEntry rs
        omega

/-- Witness for C3 at a concrete mixed batch. -/
theorem C3_witness :
    convert_to_documents entriesMixed = .ok [docOfMixed] ∧
    ([docOfMixed] : List IndexedDocument).length =
      entriesMixed.length - (entriesMixed.filter specInvalidEntry).length :=
  ⟨by rfl, ((C3_assembler_skips_exactly_invalid entriesMixed).2 [docOfMixed] (by rfl)).2⟩

/-- `prefixOfB` is transitive. -/
theorem prefixOfB_trans :
    ∀ a b c : List Char, prefixOfB a b = true → prefixOfB b c = true → prefixOfB a c = true
  | [], _, _, _, _ => rfl
  | _ :: _, [], _, hab, _ => by simp [prefixOfB] at hab
  | _ :: _, _ :: _, [], _, hbc => by simp [prefixOfB] at hbc
  | a :: as, b :: bs, c :: cs, hab, hbc => by
    simp only [prefixOfB, Bool.and_eq_true, beq_iff_eq] at hab hbc ⊢
    exact ⟨hab.1.trans hbc.1, prefixOfB_trans as bs cs hab.2 hbc.2⟩

/-- If a longer needle occurs in the haystack, so does any prefix of it. -/
theorem findFromAux_isSome_of_isSome (sub1 sub2 : List Char)
    (hpre : prefixOfB sub1 sub2 = true) :
    ∀ (hay : List Char) (i : Nat),
      (findFromAux sub2 hay i).isSome = true → (findFromAux sub1 hay i).isSome = true := by
  intro hay
  induction hay with
  | nil =>
    intro i h
    simp only [findFromAux] at h ⊢
    split at h
    · next h2 =>
      have h1 : sub1.isEmpty = true := by
        cases sub1 with
        | nil => rfl
        | cons a as =>
          rw [List.isEmpty_iff] at h2
          subst h2
          simp [prefixOfB] at hpre
      simp [h1]
    · simp at h
  | cons c rest ih =>
    intro i h
    simp only [findFromAux] at h ⊢
    cases h1 : prefixOfB sub1 (c :: rest) with
    | true => simp [h1]
    | false =>
      rw [if_neg (by simp)]
      cases h2 : prefixOfB sub2 (c :: rest) with
      | true =>
        exact absurd (prefixOfB_trans sub1 sub2 (c :: rest) hpre h2) (by simp [h1])
      | false =>
        rw [h2, if_neg (by simp)] at h
        exact ih (i + 1) h

/-- A string containing the ```json marker contains the bare ``` marker. -/
theorem pyContains_fence_of_fenceJson (s : String) :
    pyContains s "```json" = true → pyContains s "```" = true := by
  intro h
  unfold pyContains pyFind at h ⊢
  exact findFromAux_isSome_of_isSome "```".data "```json".data (by rfl)
    (s.data.drop 0) 0 h

/-! ## C4 — accepted shapes of the evaluation-response parser -/

/-- The bare-array branch succeeds when every element is acceptable. -/
theorem toEvalItems_ok (xs : List Json) (h : ∀ j ∈ xs, acceptableItem j = true) :
    exceptOk (toEvalItems xs) = true := by
  induction xs with
  | nil => rfl
  | cons j js ih =>
    have hj := h j (List.mem_cons_self j js)
    have hjs := ih fun a ha => h a (List.mem_cons_of_mem j ha)
    cases j with
    | obj flds =>
      simp only [acceptableItem, Option.isSome_iff_exists] at hj
      obtain ⟨e, he⟩ := hj
      cases hrec : toEvalItems js with
      | ok out => simp [toEvalItems, he, hrec, exceptOk]
      | error m => rw [hrec] at hjs; simp [exceptOk] at hjs
    | null =>
      cases hrec : toEvalItems js with
      | ok out => simp [toEvalItems, hrec, exceptOk]
      | error m => rw [hrec] at hjs; simp [exceptOk] at hjs
    | bool b =>
      cases hrec : toEvalItems js with
      | ok out => simp [toEvalItems, hrec, exceptOk]
      | error m => rw [hrec] at hjs; simp [exceptOk] at hjs
    | num n =>
      cases hrec : toEvalItems js with
      | ok out => simp [toEvalItems, hrec, exceptOk]
      | error m => rw [hrec] at hjs; simp [exceptOk] at hjs
    | str t =>
      cases hrec : toEvalItems js with
      | ok out => simp [toEvalItems, hrec, exceptOk]
      | error m => rw [hrec] at hjs; simp [exceptOk] at hjs
    | arr ys =>
      cases hrec : toEvalItems js with
      | ok out => simp [toEvalItems, hrec, exceptOk]
      | error m => rw [hrec] at hjs; simp [exceptOk] at hjs

/-- The strict branches succeed when every element is a valid dict. -/
theorem toEvalItemsStrict_ok (xs : List Json) (h : ∀ j ∈ xs, strictAcceptableItem j = true) :
    exceptOk (toEvalItemsStrict xs) = true := by
  induction xs with
  | nil => rfl
  | cons j js ih =>
    have hj := h j (List.mem_cons_self j js)
    have hjs := ih fun a ha => h a (List.mem_cons_of_mem j ha)
    cases j with
    | obj flds =>
      simp only [strictAcceptableItem, Option.isSome_iff_exists] at hj
      obtain ⟨e, he⟩ := hj
      cases hrec : toEvalItemsStrict js with
      | ok out => simp [toEvalItemsStrict, he, hrec, exceptOk]
      | error m => rw [hrec] at hjs; simp [exceptOk] at hjs
    | null => simp [strictAcceptableItem] at hj
    | bool b => simp [strictAcceptableItem] at hj
    | num n => simp [strictAcceptableItem] at hj
    | str t => simp [strictAcceptableItem] at hj
    | arr ys => simp [strictAcceptableItem] at hj

/-- C4 (amended): the parser first extracts a fenced body whenever the
stripped content contains a fence marker (content without one is parsed
as-is), then JSON-parses the result and accepts exactly: a JSON array
(whose dict elements must validate), an object's `candidates` list of
valid dicts, or — absent that key — the first object value that is a list
of valid dicts; unparsable content and every other parsed shape (number,
boolean, string, null, object with no list value) is a hard parse
failure. In particular a bare JSON array is accepted only when the raw
content has no fence marker. -/
theorem C4_parser_shapes (s : String) :
    (pyContains (pyStrip s) "```" = false → extractFenced (pyStrip s) = pyStrip s) ∧
    (jsonLoads (extractFenced (pyStrip s)) = Option.none →
      exceptOk (parse_llm_response s) = false) ∧
    (∀ xs, jsonLoads (extractFenced (pyStrip s)) = some (.arr xs) →
      (∀ j ∈ xs, acceptableItem j = true) → exceptOk (parse_llm_response s) = true) ∧
    (∀ fields xs, jsonLoads (extractFenced (pyStrip s)) = some (.obj fields) →
      fields.lookup "candidates" = some (.arr xs) →
      (∀ j ∈ xs, strictAcceptableItem j = true) → exceptOk (parse_llm_response s) = true) ∧
    (∀ fields xs, jsonLoads (extractFenced (pyStrip s)) = some (.obj fields) →
      fields.lookup "candidates" = Option.none → firstListValue fields = some xs →
      (∀ j ∈ xs, strictAcceptableItem j = true) → exceptOk (parse_llm_response s) = true) ∧
    (∀ fields, jsonLoads (extractFenced (pyStrip s)) = some (.obj fields) →
      fields.lookup "candidates" = Option.none → firstListValue fields = Option.none →
      exceptOk (parse_llm_response s) = false) ∧
    (∀ n, jsonLoads (extractFenced (pyStrip s)) = some (.num n) →
      exceptOk (parse_llm_response s) = false) ∧
    (∀ b, jsonLoads (extractFenced (pyStrip s)) = some (.bool b) →
      exceptOk (parse_llm_response s) = false) ∧
    (∀ t, jsonLoads (extractFenced (pyStrip s)) = some (.str t) →
      exceptOk (parse_llm_response s) = false) ∧
    (jsonLoads (extractFenced (pyStrip s)) = some .null →
      exceptOk (parse_llm_response s) = false) := by
  refine ⟨?_, ?_, ?_, ?_, ?_, ?_, ?_, ?_, ?_, ?_⟩
  · intro h
    unfold extractFenced
    have h7 : pyContains (pyStrip s) "```json" = false := by
      cases hf : pyContains (pyStrip s) "```json" with
      | false => rfl
      | true => rw [pyContains_fence_of_fenceJson (pyStrip s) hf] at h; exact absurd h (by simp)
    simp [h, h7]
  · intro h; simp [parse_llm_response, h, exceptOk]
  · intro xs h hall
    simp only [parse_llm_response, h]
    exact toEvalItems_ok xs hall
  · intro fields xs h hc hall
    simp only [parse_llm_response, h, hc, pyIter]
    exact toEvalItemsStrict_ok xs hall
  · intro fields xs h hc hf hall
    simp only [parse_llm_response, h, hc, hf]
    exact toEvalItemsStrict_ok xs hall
  · intro fields h hc hf
    simp [parse_llm_response, h, hc, hf, exceptOk]
  · intro n h; simp [parse_llm_response, h, exceptOk]
  · intro b h; simp [parse_llm_response, h, exceptOk]
  · intro t h; simp [parse_llm_response, h, exceptOk]
  · intro h; simp [parse_llm_response, h, exceptOk]

/-- C4 counterexample to the claim as stated: `["x```y"]` is a bare JSON
array — shape (a), which the claim says is accepted first — yet the code
finds the fence marker inside the string, mis-extracts a fenced body, and
raises a hard parse failure. -/
theorem C4_counterexample_bare_array_with_fence :
    jsonLoads bareArrayWithFence = some (.arr [.str "x```y"]) ∧
    exceptOk (parse_llm_response bareArrayWithFence) = false := by
  refine ⟨by rfl, by rfl⟩

/-- Witness for C4 at concrete fenced and `candidates`-shaped inputs. -/
theorem C4_witness :
    exceptOk (parse_llm_response "```json\n[]\n```") = true ∧
    exceptOk (parse_llm_response "\x7b\"candidates\": []\x7d") = true ∧
    exceptOk (parse_llm_response "no json here") = false :=
  ⟨(C4_parser_shapes "```json\n[]\n```").2.2.1 [] (by rfl) (by intro j hj; cases hj),
   (C4_parser_shapes "\x7b\"candidates\": []\x7d").2.2.2.1 [("candidates", .arr [])] [] (by rfl)
     (by rfl) (by intro j hj; cases hj),
   (C4_parser_shapes "no json here").2.1 (by rfl)⟩

/-! ## C5 — failure semantics of the search request -/

/-- A match contributes no context exactly when it is unresolved in the
claim's sense. -/
theorem resolveContext_eq_none_iff (db : List CandidateRow) (doc : IndexedDocument) :
    resolveContext db doc = Option.none ↔ specUnresolved db doc := by
  unfold resolveContext specUnresolved
  cases hc : doc.candidateId with
  | none => simp
  | some n =>
    simp only [Option.some.injEq]
    cases hf : db.filter (fun r => r.id == n) with
    | nil =>
      have hall : ∀ r ∈ db, r.id ≠ n := by
        intro r hr hrn
        have : r ∈ db.filter (fun r => r.id == n) :=
          List.mem_filter.mpr ⟨hr, by simp [hrn]⟩
        rw [hf] at this
        cases this
      simp only [true_iff]
      exact Or.inr ⟨n, rfl, hall⟩
    | cons row rest =>
      constructor
      · intro h; cases h
      · rintro (h | ⟨m, hm, hall⟩)
        · cases h
        · have : row ∈ db.filter (fun r => r.id == n) := by rw [hf]; exact List.mem_cons_self row rest
          have hrow := List.mem_filter.mp this
          cases hm
          exact absurd (by exact_mod_cast (beq_iff_eq.mp hrow.2)) (hall row hrow.1)

/-- C5: an empty retrieval is an empty result, not an error; a retrieval in
which every match fails resolution is an empty result, not an error; when
at least one match resolves, the request's outcome is exactly the outcome
of parsing the batched evaluation response — an unparsable response fails
the whole request with its error and no partial results. -/
theorem C5_search_failure_semantics :
    (∀ (db : List CandidateRow) (resp : String), search_candidates [] db resp = .ok []) ∧
    (∀ (docs : List (IndexedDocument × Rat)) (db : List CandidateRow) (resp : String),
      (∀ p ∈ docs, specUnresolved db p.1) → search_candidates docs db resp = .ok []) ∧
    (∀ (docs : List (IndexedDocument × Rat)) (db : List CandidateRow) (resp : String),
      (∃ p ∈ docs, ¬ specUnresolved db p.1) →
      search_candidates docs db resp = parse_llm_response resp) := by
  refine ⟨?_, ?_, ?_⟩
  · intro db resp; rfl
  · intro docs db resp h
    unfold search_candidates
    cases hd : docs with
    | nil => rfl
    | cons p ps =>
      rw [if_neg (by simp)]
      have hctx : (p :: ps).filterMap (fun ds => resolveContext db ds.1) = [] := by
        refine List.filterMap_eq_nil_iff.mpr ?_
        intro a ha
        exact (resolveContext_eq_none_iff db a.1).mpr (h a (hd ▸ ha))
      simp [hctx]
  · intro docs db resp h
    obtain ⟨p, hp, hres⟩ := h
    have hne : resolveContext db p.1 ≠ Option.none := by
      intro hnone
      exact hres ((resolveContext_eq_none_iff db p.1).mp hnone)
    obtain ⟨c, hc⟩ := Option.ne_none_iff_exists'.mp hne
    unfold search_candidates
    rw [if_neg (by intro he; rw [List.isEmpty_iff] at he; subst he; cases hp)]
    have hmem : c ∈ docs.filterMap (fun ds => resolveContext db ds.1) :=
      List.mem_filterMap.mpr ⟨p, hp, hc⟩
    rw [if_neg (by intro he; rw [List.isEmpty_iff] at he; rw [he] at hmem; cases hmem)]

/-- Witness for C5 at concrete fixtures: two retrieved matches of which one
fails resolution; the one-candidate evaluation response yields one result —
fewer than the two retrieved matches (`k = 2`). -/
theorem C5_witness :
    search_candidates [] [rowIvan] evalRespOne = .ok [] ∧
    search_candidates [(docUnresolved, (4 : Rat) / 5)] [rowIvan] evalRespOne = .ok [] ∧
    search_candidates [(docResolved, (9 : Rat) / 10), (docUnresolved, (4 : Rat) / 5)] [rowIvan]
      evalRespOne = parse_llm_response evalRespOne ∧
    parse_llm_response evalRespOne = .ok [.eval evalIvan] ∧
    [EvalItem.eval evalIvan].length < 2 :=
  ⟨C5_search_failure_semantics.1 [rowIvan] evalRespOne,
   C5_search_failure_semantics.2.1 [(docUnresolved, (4 : Rat) / 5)] [rowIvan] evalRespOne
     (by
       intro p hp
       cases hp with
       | head =>
         exact Or.inr ⟨99, by rfl, by intro r hr; cases hr with
           | head => simp [rowIvan]
           | tail _ h => cases h⟩
       | tail _ h => cases h),
   C5_search_failure_semantics.2.2 [(docResolved, (9 : Rat) / 10), (docUnresolved, (4 : Rat) / 5)]
     [rowIvan] evalRespOne
     (by
       refine ⟨(docResolved, (9 : Rat) / 10), List.mem_cons_self _ _, ?_⟩
       intro hun
       cases hun with
       | inl h => exact absurd h (by simp [docResolved, IndexedDocument.candidateId])
       | inr h =>
         obtain ⟨m, hm, hall⟩ := h
         have : m = 1 := by
           have : IndexedDocument.candidateId docResolved = some 1 := by rfl
           rw [this] at hm
           cases hm
           rfl
         subst this
         exact hall rowIvan (List.mem_cons_self _ _) (by rfl)),
   by rfl,
   by decide⟩

/-! ## C6 — filtered similarity search -/

/-- The experience key the code writes resolves to the metadata field. -/
theorem payloadValue_experience (d : IndexedDocument) :
    payloadValue d "metadata.experience_years" = d.metadata.lookup "experience_years" := by
  rfl

/-- The grade key the code writes resolves to the metadata field. -/
theorem payloadValue_grade (d : IndexedDocument) :
    payloadValue d "metadata.grade" = d.metadata.lookup "grade" := by
  rfl

/-- Structure of a returned match: it is a stored document with its score,
and it passes every condition the request's filters induce. -/
theorem mem_search_with_filter {coll : List IndexedDocument} {score : IndexedDocument → Rat}
    {k : Nat} {em : Option Rat} {gr : Option String} {p : IndexedDocument × Rat}
    (hp : p ∈ search_with_filter coll score k em gr) :
    p.1 ∈ coll ∧ p.2 = score p.1 ∧
    (∀ v, em = some v → condHolds p.1 (.rangeGte "metadata.experience_years" v) = true) ∧
    (∀ g, gr = some g → condHolds p.1 (.matchValue "metadata.grade" g) = true) := by
  unfold search_with_filter similaritySearch at hp
  have h1 : p ∈ (((coll.filter fun d =>
      filterHolds d (if ((match em with
        | some v => [QCondition.rangeGte "metadata.experience_years" v]
        | Option.none => []) ++ (match gr with
        | some g => [QCondition.matchValue "metadata.grade" g]
        | Option.none => [])).isEmpty then Option.none
        else some ⟨(match em with
        | some v => [QCondition.rangeGte "metadata.experience_years" v]
        | Option.none => []) ++ (match gr with
        | some g => [QCondition.matchValue "metadata.grade" g]
        | Option.none => [])⟩)).map fun d => (d, score d)) : List (IndexedDocument × Rat)) := by
    have := List.take_subset k _ hp
    exact (List.perm_insertionSort scoreDesc _).mem_iff.mp this
  obtain ⟨d, hd, hde⟩ := List.mem_map.mp h1
  obtain ⟨hcoll, hpass⟩ := List.mem_filter.mp hd
  subst hde
  refine ⟨hcoll, rfl, ?_, ?_⟩
  · intro v hv
    subst hv
    cases gr with
    | none => simpa [filterHolds] using hpass
    | some g =>
      exact (by simpa [filterHolds] using hpass :
        condHolds d (QCondition.rangeGte "metadata.experience_years" v) = true ∧
        condHolds d (QCondition.matchValue "metadata.grade" g) = true).1
  · intro g hg
    subst hg
    cases em with
    | none => simpa [filterHolds] using hpass
    | some v =>
      exact (by simpa [filterHolds] using hpass :
        condHolds d (QCondition.rangeGte "metadata.experience_years" v) = true ∧
        condHolds d (QCondition.matchValue "metadata.grade" g) = true).2

/-- C6: a filtered search returns at most `k` matches; with a minimum
experience given, every returned document carries a numeric
`experience_years` at least that minimum; with a grade given, every
returned document carries exactly that grade; both constraints hold
simultaneously when both filters are given (logical AND); and the matches
are ordered by descending relevance score. -/
theorem C6_search_with_filter_spec (coll : List IndexedDocument)
    (score : IndexedDocument → Rat) (k : Nat) (em : Option Rat) (gr : Option String) :
    (search_with_filter coll score k em gr).length ≤ k ∧
    (∀ p ∈ search_with_filter coll score k em gr, ∀ v, em = some v →
      ∃ q, metaNumericValue p.1 "experience_years" = some q ∧ v ≤ q) ∧
    (∀ p ∈ search_with_filter coll score k em gr, ∀ g, gr = some g →
      p.1.metadata.lookup "grade" = some (.str g)) ∧
    List.Sorted scoreDesc (search_with_filter coll score k em gr) := by
  refine ⟨?_, ?_, ?_, ?_⟩
  · unfold search_with_filter similaritySearch
    exact List.length_take_le k _
  · intro p hp v hv
    have hcond := (mem_search_with_filter hp).2.2.1 v hv
    rw [show condHolds p.1 (.rangeGte "metadata.experience_years" v) =
        (match payloadValue p.1 "metadata.experience_years" with
         | some (.int n) => decide (v ≤ (n : Rat))
         | some (.float q) => decide (v ≤ q)
         | _ => false) from rfl, payloadValue_experience] at hcond
    unfold metaNumericValue
    cases hl : p.1.metadata.lookup "experience_years" with
    | none => rw [hl] at hcond; cases hcond
    | some pv =>
      rw [hl] at hcond
      cases pv with
      | int n => exact ⟨(n : Rat), rfl, of_decide_eq_true hcond⟩
      | float q => exact ⟨q, rfl, of_decide_eq_true hcond⟩
      | none => cases hcond
      | bool b => cases hcond
      | str t => cases hcond
      | list xs => cases hcond
      | dict kvs => cases hcond
  · intro p hp g hg
    have hcond := (mem_search_with_filter hp).2.2.2 g hg
    rw [show condHolds p.1 (.matchValue "metadata.grade" g) =
        (match payloadValue p.1 "metadata.grade" with
         | some (.str t) => t == g
         | _ => false) from rfl, payloadValue_grade] at hcond
    cases hl : p.1.metadata.lookup "grade" with
    | none => rw [hl] at hcond; cases hcond
    | some pv =>
      rw [hl] at hcond
      cases pv with
      | str t => rw [beq_iff_eq.mp hcond]
      | none => cases hcond
      | bool b => cases hcond
      | int n => cases hcond
      | float q => cases hcond
      | list xs => cases hcond
      | dict kvs => cases hcond
  · unfold search_with_filter similaritySearch
    exact (List.sorted_insertionSort scoreDesc _).sublist (List.take_sublist k _)

/-- Witness for C6 at a concrete 3-document collection with both filters
set: at most 2 matches, descending order, and the returned document's
experience meets the minimum. -/
theorem C6_witness :
    (search_with_filter collThree scoreByLen 2 (some 3) (some "Senior")).length ≤ 2 ∧
    List.Sorted scoreDesc (search_with_filter collThree scoreByLen 2 (some 3) (some "Senior")) ∧
    (∃ q, metaNumericValue
        (⟨"профиль A", [("candidate_id", .int 1), ("experience_years", .float 5),
          ("grade", .str "Senior")]⟩ : IndexedDocument) "experience_years" = some q ∧
      (3 : Rat) ≤ q) := by
  refine ⟨(C6_search_with_filter_spec collThree scoreByLen 2 (some 3) (some "Senior")).1,
    (C6_search_with_filter_spec collThree scoreByLen 2 (some 3) (some "Senior")).2.2.2, ?_⟩
  have hm : ((⟨"профиль A", [("candidate_id", .int 1), ("experience_years", .float 5),
      ("grade", .str "Senior")]⟩ : IndexedDocument),
        scoreByLen ⟨"профиль A", [("candidate_id", .int 1), ("experience_years", .float 5),
          ("grade", .str "Senior")]⟩) ∈
      search_with_filter collThree scoreByLen 2 (some 3) (some "Senior") := by
    rw [show search_with_filter collThree scoreByLen 2 (some 3) (some "Senior") =
      [((⟨"профиль A", [("candidate_id", .int 1), ("experience_years", .float 5),
        ("grade", .str "Senior")]⟩ : IndexedDocument),
          scoreByLen ⟨"профиль A", [("candidate_id", .int 1), ("experience_years", .float 5),
            ("grade", .str "Senior")]⟩)] from rfl]
    exact List.mem_cons_self _ _
  exact (C6_search_with_filter_spec collThree scoreByLen 2 (some 3) (some "Senior")).2.1
    _ hm 3 rfl

/-! ## C7 — pydantic validation of CandidateMetadata -/

/-- The anchored optional grade pattern accepts exactly the six grades and
the empty string. -/
theorem gradePatternOk_iff (s : String) :
    gradePatternOk s = true ↔
      s ∈ ["", "Intern", "Junior", "Middle", "Senior", "Lead", "Head"] := by
  simp [gradePatternOk]
  tauto

/-- The anchored optional level pattern accepts exactly the seven levels
and the empty string. -/
theorem levelPatternOk_iff (s : String) :
    levelPatternOk s = true ↔
      s ∈ ["", "A1", "A2", "B1", "B2", "C1", "C2", "Native"] := by
  simp [levelPatternOk]
  tauto

/-- C7 (amended): validation accepts a record iff grade is one of the six
grades, the empty string, or null; every language level is one of the
seven levels, the empty string, or null; and `experience_years` is `≥ 0`
or null — `embedding_text` may be any string, the empty string included. -/
theorem C7_validation_rule (m : CandidateMetadata) :
    validCandidateMetadata m = true ↔ specAmendedValidCandidateMetadata m = true := by
  unfold validCandidateMetadata specAmendedValidCandidateMetadata
  simp only [Bool.and_eq_true]
  refine and_congr (and_congr ?_ Iff.rfl) ?_
  · cases m.grade with
    | none => exact Iff.rfl
    | some s => simp [gradePatternOk_iff]
  · simp only [List.all_eq_true]
    refine forall_congr' fun l => forall_congr' fun _ => ?_
    unfold validLanguageSkill
    cases l.level with
    | none => exact Iff.rfl
    | some s => simp [levelPatternOk_iff]

/-- C7 counterexample to the claim as stated: a record whose grade, one
language level and `embedding_text` are all the empty string passes the
code's validation, while the claim's rule rejects it on every one of those
counts. -/
theorem C7_counterexample_empty_strings :
    validCandidateMetadata mdEmptyFields = true ∧
    mdEmptyFields.grade = some "" ∧
    mdEmptyFields.embedding_text = "" ∧
    specValidCandidateMetadata mdEmptyFields = false := by
  refine ⟨by rfl, by rfl, by rfl, by rfl⟩

/-- Witness for C7: the amended rule transfers a concrete acceptance. -/
theorem C7_witness : validCandidateMetadata mdSample = true :=
  (C7_validation_rule mdSample).mpr (by rfl)

/-! ## C8 — PII in embedding_text is not enforced by validation -/

/-- C8 (amended): validation is insensitive to the content of
`embedding_text` — replacing it by any string whatsoever (one containing
the source record's full name, phone or email included) preserves
validity; the PII exclusion lives only in the extraction prompt. -/
theorem C8_validation_ignores_embedding_text (m : CandidateMetadata) (s : String)
    (h : validCandidateMetadata m = true) :
    validCandidateMetadata { m with embedding_text := s } = true := by
  simpa [validCandidateMetadata] using h

/-- C8 counterexample to the claim as stated: a metadata record whose
`embedding_text` contains the source record's `fullname` and `email` as
substrings still passes validation. -/
theorem C8_counterexample_pii_passes_validation :
    validCandidateMetadata mdLeaky = true ∧
    pyContains mdLeaky.embedding_text recIvan.fullname = true ∧
    pyContains mdLeaky.embedding_text recIvan.email = true := by
  refine ⟨by rfl, by rfl, by rfl⟩

/-- Witness for C8 at a concrete record and replacement text. -/
theorem C8_witness :
    validCandidateMetadata { mdSample with embedding_text := "Ivan Ivanov" } = true :=
  C8_validation_ignores_embedding_text mdSample "Ivan Ivanov" (by rfl)

/-! ## C9 — the résumé parser's fallback -/

/-- C9: the embedded parser is total — every row yields a text — and for a
row with no usable markup the output is exactly the fallback-only text
built purely from the structured flat fields. -/
theorem C9_parser_fallback (row : ResumeRow) :
    (∃ t, build_resume_row row = t) ∧
    (row.html = Option.none → build_resume_row row = fallbackOnlyText row) := by
  refine ⟨⟨build_resume_row row, rfl⟩, ?_⟩
  intro h
  unfold build_resume_row fallbackOnlyText
  rw [h]

/-- Witness for C9 at a concrete markup-free row. -/
theorem C9_witness : build_resume_row rowNoHtml = fallbackOnlyText rowNoHtml :=
  (C9_parser_fallback rowNoHtml).2 rfl

/-! ## C10 — pass-through of non-dict elements in the bare-array branch -/

/-- C10: when the (fence-extracted) response parses as a bare JSON array
whose dict elements all validate, the parse succeeds, returns one output
item per array element, and every non-dict element appears in the output
unchanged as a raw passthrough value — not as a CandidateEvaluation. -/
theorem C10_nondict_passthrough (s : String) (xs : List Json)
    (h : jsonLoads (extractFenced (pyStrip s)) = some (.arr xs))
    (hall : ∀ j ∈ xs, acceptableItem j = true) :
    ∃ out, parse_llm_response s = .ok out ∧ out.length = xs.length ∧
      ∀ i (h1 : i < xs.length) (h2 : i < out.length),
        (xs.get ⟨i, h1⟩).isObj = false → out.get ⟨i, h2⟩ = .raw (xs.get ⟨i, h1⟩) := by
  have main : ∀ ys : List Json, (∀ j ∈ ys, acceptableItem j = true) →
      ∃ out, toEvalItems ys = .ok out ∧ out.length = ys.length ∧
        ∀ i (h1 : i < ys.length) (h2 : i < out.length),
          (ys.get ⟨i, h1⟩).isObj = false → out.get ⟨i, h2⟩ = .raw (ys.get ⟨i, h1⟩) := by
    intro ys
    induction ys with
    | nil => intro _; exact ⟨[], rfl, rfl, fun i h1 => absurd h1 (by simp)⟩
    | cons j js ih =>
      intro hys
      obtain ⟨out, hout, hlen, hpt⟩ := ih fun a ha => hys a (List.mem_cons_of_mem j ha)
      have hj := hys j (List.mem_cons_self j js)
      cases j with
      | obj flds =>
        simp only [acceptableItem, Option.isSome_iff_exists] at hj
        obtain ⟨e, he⟩ := hj
        refine ⟨.eval e :: out, by simp [toEvalItems, he, hout], by simp [hlen], ?_⟩
        intro i h1 h2 hobj
        cases i with
        | zero => simp [Json.isObj] at hobj
        | succ i => exact hpt i (by simpa using h1) (by simpa using h2) hobj
      | null =>
        refine ⟨.raw .null :: out, by simp [toEvalItems, hout], by simp [hlen], ?_⟩
        intro i h1 h2 hobj
        cases i with
        | zero => rfl
        | succ i => exact hpt i (by simpa using h1) (by simpa using h2) hobj
      | bool b =>
        refine ⟨.raw (.bool b) :: out, by simp [toEvalItems, hout], by simp [hlen], ?_⟩
        intro i h1 h2 hobj
        cases i with
        | zero => rfl
        | succ i => exact hpt i (by simpa using h1) (by simpa using h2) hobj
      | num n =>
        refine ⟨.raw (.num n) :: out, by simp [toEvalItems, hout], by simp [hlen], ?_⟩
        intro i h1 h2 hobj
        cases i with
        | zero => rfl
        | succ i => exact hpt i (by simpa using h1) (by simpa using h2) hobj
      | str t =>
        refine ⟨.raw (.str t) :: out, by simp [toEvalItems, hout], by simp [hlen], ?_⟩
        intro i h1 h2 hobj
        cases i with
        | zero => rfl
        | succ i => exact hpt i (by simpa using h1) (by simpa using h2) hobj
      | arr ys =>
        refine ⟨.raw (.arr ys) :: out, by simp [toEvalItems, hout], by simp [hlen], ?_⟩
        intro i h1 h2 hobj
        cases i with
        | zero => rfl
        | succ i => exact hpt i (by simpa using h1) (by simpa using h2) hobj
  obtain ⟨out, hout, hlen, hpt⟩ := main xs hall
  refine ⟨out, ?_, hlen, hpt⟩
  simp only [parse_llm_response, h]
  exact hout

/-- Witness for C10 at a concrete bare array of non-dict values. -/
theorem C10_witness :
    ∃ out, parse_llm_response "[1, \"a\", null]" = .ok out ∧
      out.length = ([Json.num 1, Json.str "a", Json.null] : List Json).length ∧
      ∀ i (h1 : i < ([Json.num 1, Json.str "a", Json.null] : List Json).length)
        (h2 : i < out.length),
        (([Json.num 1, Json.str "a", Json.null] : List Json).get ⟨i, h1⟩).isObj = false →
          out.get ⟨i, h2⟩ = .raw (([Json.num 1, Json.str "a", Json.null] : List Json).get ⟨i, h1⟩) :=
  C10_nondict_passthrough "[1, \"a\", null]" [Json.num 1, Json.str "a", Json.null] (by rfl)
    (by intro j hj; rcases hj with _ | ⟨_, _ | ⟨_, _ | ⟨_, h⟩⟩⟩ <;> first | rfl | cases h)
